import Mathlib

/-!
Shallow embedding of the audio capture worklet (`PCMProcessor`) and the
streaming transcription hook (`useTranscription`) of the stt-hds-demo
repository, together with theorems settling the frozen claims.

Audio samples are modelled as rationals.  The JavaScript `Int16Array` store
is modelled as truncation toward zero followed by 16-bit two's-complement
wrapping, which is the ECMAScript `ToInt16` conversion.
-/

/-- Engine lifecycle states of the capture worklet
(`'initialized' | 'running' | 'stopped' | 'error'` in the source). -/
inductive EngineState where
  | initialized
  | running
  | stopped
  | error
deriving DecidableEq, Repr

/-- Messages posted from the audio worklet to the main thread.  The source
posts the root-mean-square level `Math.sqrt(levelSum / levelSampleCount)`;
since the square root of a rational is in general irrational, the level
message here carries the radicand `levelSum / levelSampleCount` instead
(no claim concerns the numeric level value). -/
inductive PCMMsg where
  | audio (chunk : List ℤ)
  | level (meanSquare : ℚ)
  | stateMsg (s : EngineState)
  | errorMsg (e : String)
deriving DecidableEq, Repr

/-- State of the `PCMProcessor` worklet.  The source stores samples in a
pre-allocated `Float32Array` with a `bytesWritten` cursor; here `buffer` is
the list of the `bytesWritten` stored samples. -/
structure PCMState where
  bufferSize : ℕ
  targetSampleRate : ℚ
  inputSampleRate : ℚ
  buffer : List ℚ
  state : EngineState
  isRunning : Bool
  resampleRatio : ℚ
  resamplePosition : ℚ
  levelUpdateInterval : ℕ
  levelSampleCount : ℕ
  levelSum : ℚ
  messages : List PCMMsg
deriving DecidableEq, Repr

/-- Truncation of a rational toward zero, as ECMAScript `truncate`. -/
def ratTrunc (x : ℚ) : ℤ :=
  if x < 0 then ⌈x⌉ else ⌊x⌋

/-- ECMAScript `ToInt16`: reduce modulo 2^16 and reinterpret as a signed
16-bit value. -/
def int16OfInt (t : ℤ) : ℤ :=
  if 32768 ≤ t % 65536 then t % 65536 - 65536 else t % 65536

/-- The per-sample conversion performed by `PCMProcessor.flush`:
`int16Data[i] = s < 0 ? s * 0x8000 : s * 0x7FFF`, stored into an
`Int16Array`. -/
def quantizePCM (s : ℚ) : ℤ :=
  int16OfInt (ratTrunc (if s < 0 then s * 32768 else s * 32767))

/-- `PCMProcessor.flush`: if the accumulator is empty do nothing, otherwise
emit the quantized contents as one audio chunk and reset the accumulator. -/
def PCMState.flush (st : PCMState) : PCMState :=
  if st.buffer.length = 0 then st
  else
    { st with
      messages := st.messages ++ [PCMMsg.audio (st.buffer.map quantizePCM)]
      buffer := [] }

/-- `PCMProcessor.notifyState`: record the new lifecycle state and post a
state message. -/
def PCMState.notifyState (st : PCMState) (s : EngineState) : PCMState :=
  { st with state := s, messages := st.messages ++ [PCMMsg.stateMsg s] }

/-- `PCMProcessor.stop`: flush the accumulator if it is non-empty, mark the
engine as not running, and post a `stopped` lifecycle notification. -/
def PCMState.stop (st : PCMState) : PCMState :=
  let st1 := if 0 < st.buffer.length then st.flush else st
  PCMState.notifyState { st1 with isRunning := false } EngineState.stopped

/-- The clamp performed at the top of `PCMProcessor.addSample`:
`Math.max(-1, Math.min(1, sample))`. -/
def clampSample (s : ℚ) : ℚ :=
  max (-1) (min 1 s)

/-- `PCMProcessor.addSample`: clamp the sample, append it to the
accumulator, update the loudness window (emitting a level message once the
window is full), and flush once the accumulator reaches `bufferSize`. -/
def PCMState.addSample (st : PCMState) (s : ℚ) : PCMState :=
  let c := clampSample s
  let st1 :=
    { st with
      buffer := st.buffer ++ [c]
      levelSum := st.levelSum + c * c
      levelSampleCount := st.levelSampleCount + 1 }
  let st2 :=
    if st1.levelUpdateInterval ≤ st1.levelSampleCount then
      { st1 with
        messages :=
          st1.messages ++ [PCMMsg.level (st1.levelSum / st1.levelSampleCount)]
        levelSum := 0
        levelSampleCount := 0 }
    else st1
  if st2.bufferSize ≤ st2.buffer.length then st2.flush else st2

/-- The worklet state right after construction with default options
(`bufferSize` 4096, `targetSampleRate` 16000, level window 512); the
constructor posts a `running` state notification. -/
def initPCM (inputRate : ℚ) : PCMState :=
  { bufferSize := 4096
    targetSampleRate := 16000
    inputSampleRate := inputRate
    buffer := []
    state := EngineState.running
    isRunning := true
    resampleRatio := inputRate / 16000
    resamplePosition := 0
    levelUpdateInterval := 512
    levelSampleCount := 0
    levelSum := 0
    messages := [PCMMsg.stateMsg EngineState.running] }

/-- All samples stored in the accumulator lie in the clamp range. -/
def buffersClamped (st : PCMState) : Prop :=
  ∀ x ∈ st.buffer, -1 ≤ x ∧ x ≤ 1

lemma clampSample_mem (s : ℚ) : -1 ≤ clampSample s ∧ clampSample s ≤ 1 := by
  unfold clampSample
  exact ⟨le_max_left _ _, max_le (by norm_num) (min_le_left _ _)⟩

lemma int16OfInt_eq_of_range (t : ℤ) (h1 : -32768 ≤ t) (h2 : t ≤ 32767) :
    int16OfInt t = t := by
  unfold int16OfInt
  split <;> omega

lemma quantizePCM_range (c : ℚ) (h1 : -1 ≤ c) (h2 : c ≤ 1) :
    quantizePCM c
        = ratTrunc (if c < 0 then c * 32768 else c * 32767) ∧
      -32768 ≤ quantizePCM c ∧ quantizePCM c ≤ 32767 := by
  have key :
      -32768 ≤ ratTrunc (if c < 0 then c * 32768 else c * 32767) ∧
        ratTrunc (if c < 0 then c * 32768 else c * 32767) ≤ 32767 := by
    unfold ratTrunc
    by_cases hc : c < 0
    · have hx0 : c * 32768 < 0 := mul_neg_of_neg_of_pos hc (by norm_num)
      have hxl : (-32768 : ℚ) ≤ c * 32768 := by nlinarith
      simp only [if_pos hc, if_pos hx0]
      constructor
      · have := Int.ceil_le_ceil (α := ℚ) hxl
        simpa using this
      · have : ⌈c * 32768⌉ ≤ ⌈(0 : ℚ)⌉ := Int.ceil_le_ceil (le_of_lt hx0)
        simp at this
        omega
    · push_neg at hc
      have hx0 : ¬ c * 32767 < 0 := by nlinarith
      have hxu : c * 32767 ≤ 32767 := by nlinarith
      simp only [if_neg (not_lt.mpr hc), if_neg hx0]
      constructor
      · have h0 : (0 : ℤ) ≤ ⌊c * 32767⌋ := by
          rw [Int.le_floor]
          push_cast
          nlinarith
        omega
      · have := Int.floor_le_floor (α := ℚ) hxu
        simpa using this
  refine ⟨?_, ?_, ?_⟩
  · unfold quantizePCM
    exact int16OfInt_eq_of_range _ key.1 key.2
  · unfold quantizePCM
    rw [int16OfInt_eq_of_range _ key.1 key.2]
    exact key.1
  · unfold quantizePCM
    rw [int16OfInt_eq_of_range _ key.1 key.2]
    exact key.2

lemma addSample_buffer (st : PCMState) (s : ℚ) :
    (st.addSample s).buffer = st.buffer ++ [clampSample s] ∨
      (st.addSample s).buffer = [] := by
  unfold PCMState.addSample PCMState.flush
  dsimp only
  split_ifs <;> simp

lemma addSample_clamped (st : PCMState) (s : ℚ) (h : buffersClamped st) :
    buffersClamped (st.addSample s) := by
  have hc := clampSample_mem s
  unfold buffersClamped at h ⊢
  rcases addSample_buffer st s with hb | hb <;> rw [hb]
  · intro x hx
    rcases List.mem_append.mp hx with hx | hx
    · exact h x hx
    · rcases List.mem_singleton.mp hx with rfl
      exact hc
  · intro x hx
    simp at hx

/-- Claim C2: every sample appended by the engine is first clamped to
[-1, 1]; the flush conversion quantizes a stored sample `s` by truncating
`s * 32768` when `s < 0` and `s * 32767` when `s ≥ 0` (the 16-bit wrap is
the identity, i.e. no overflow occurs); and for any rational input the
quantization of the clamped sample never lies outside [-32768, 32767]. -/
theorem c2_clamp_quantize_range :
    (∀ s : ℚ, -1 ≤ clampSample s ∧ clampSample s ≤ 1) ∧
    (∀ (st : PCMState) (s : ℚ),
      buffersClamped st → buffersClamped (st.addSample s)) ∧
    (∀ s : ℚ,
      quantizePCM (clampSample s)
          = ratTrunc
              (if clampSample s < 0 then clampSample s * 32768
               else clampSample s * 32767) ∧
        -32768 ≤ quantizePCM (clampSample s) ∧
        quantizePCM (clampSample s) ≤ 32767) ∧
    (∀ st : PCMState, buffersClamped st →
      ∀ v ∈ st.buffer.map quantizePCM, -32768 ≤ v ∧ v ≤ 32767) := by
  refine ⟨clampSample_mem, addSample_clamped, ?_, ?_⟩
  · intro s
    exact quantizePCM_range (clampSample s) (clampSample_mem s).1
      (clampSample_mem s).2
  · intro st hst v hv
    simp only [List.mem_map] at hv
    obtain ⟨c, hcmem, rfl⟩ := hv
    obtain ⟨h1, h2⟩ := hst c hcmem
    exact (quantizePCM_range c h1 h2).2

/-- Witness for C2: the clamped-buffer hypotheses hold at the freshly
constructed engine and are preserved by adding the (wild) sample 7. -/
theorem c2_witness :
    buffersClamped (initPCM 48000) ∧
      buffersClamped ((initPCM 48000).addSample 7) :=
  ⟨by intro x hx; simp [initPCM] at hx,
   c2_clamp_quantize_range.2.1 (initPCM 48000) 7
     (by intro x hx; simp [initPCM] at hx)⟩

/-- Claim C8: `stop()` flushes a non-empty accumulator exactly once (one
audio message with the quantized remainder, followed by the `stopped`
lifecycle notification), an empty accumulator produces only the lifecycle
notification, the stopped engine has an empty accumulator and is no longer
running, and a second `stop()` only re-emits the lifecycle notification and
never flushes again. -/
theorem c8_stop_idempotent :
    (∀ st : PCMState, st.buffer ≠ [] →
      (st.stop).messages
        = st.messages
            ++ [PCMMsg.audio (st.buffer.map quantizePCM),
                PCMMsg.stateMsg EngineState.stopped]) ∧
    (∀ st : PCMState, st.buffer = [] →
      (st.stop).messages = st.messages ++ [PCMMsg.stateMsg EngineState.stopped]) ∧
    (∀ st : PCMState,
      (st.stop).buffer = [] ∧ (st.stop).isRunning = false ∧
        (st.stop).state = EngineState.stopped) ∧
    (∀ st : PCMState,
      (st.stop.stop).messages
        = (st.stop).messages ++ [PCMMsg.stateMsg EngineState.stopped]) := by
  have hbuf : ∀ st : PCMState, (st.stop).buffer = [] := by
    intro st
    unfold PCMState.stop PCMState.notifyState PCMState.flush
    rcases eq_or_ne st.buffer [] with h | h
    · simp [h]
    · have : 0 < st.buffer.length := List.length_pos.mpr h
      simp only [if_pos this]
      have hne : ¬ st.buffer.length = 0 := by omega
      simp [hne]
  have hempty : ∀ st : PCMState, st.buffer = [] →
      (st.stop).messages = st.messages ++ [PCMMsg.stateMsg EngineState.stopped] := by
    intro st h
    unfold PCMState.stop PCMState.notifyState PCMState.flush
    simp [h]
  refine ⟨?_, hempty, ?_, ?_⟩
  · intro st h
    have hlen : 0 < st.buffer.length := List.length_pos.mpr h
    have hne : ¬ st.buffer.length = 0 := by omega
    unfold PCMState.stop PCMState.notifyState PCMState.flush
    simp [if_pos hlen, hne]
  · intro st
    refine ⟨hbuf st, ?_, ?_⟩
    · unfold PCMState.stop PCMState.notifyState
      rfl
    · unfold PCMState.stop PCMState.notifyState
      rfl
  · intro st
    exact hempty st.stop (hbuf st)

/-- Witness for C8: stopping an engine holding the single partial sample
1/2 emits exactly one audio chunk followed by the lifecycle message. -/
theorem c8_witness :
    ({ initPCM 48000 with buffer := [1/2] } : PCMState).buffer ≠ [] ∧
      (({ initPCM 48000 with buffer := [1/2] } : PCMState).stop).messages
        = ({ initPCM 48000 with buffer := [1/2] } : PCMState).messages
            ++ [PCMMsg.audio (([1/2] : List ℚ).map quantizePCM),
                PCMMsg.stateMsg EngineState.stopped] :=
  ⟨by simp,
   c8_stop_idempotent.1 { initPCM 48000 with buffer := [1/2] } (by simp)⟩

/-- Linear interpolation at fractional position `p` in the input frame, as
in `PCMProcessor.processWithDownsampling`: `sample1 = inputData[intPos]`,
`sample2 = intPos + 1 < inputLength ? inputData[intPos + 1] : sample1`,
output `sample1 + (sample2 - sample1) * fracPos`. -/
def interpAt (input : List ℚ) (p : ℚ) : ℚ :=
  let intPos := (⌊p⌋).toNat
  let fracPos := p - ⌊p⌋
  let sample1 := input.getD intPos 0
  let sample2 :=
    if intPos + 1 < input.length then input.getD (intPos + 1) 0 else sample1
  sample1 + (sample2 - sample1) * fracPos

/-- The interpolation loop of `processWithDownsampling`: while the resample
position is inside the frame, emit the interpolated sample and advance the
position by the resample ratio.  The positivity hypothesis on the ratio
makes the loop terminate. -/
def resampleAux (r : ℚ) (hr : 0 < r) (input : List ℚ) (p : ℚ) :
    List ℚ × ℚ :=
  if _h : p < (input.length : ℚ) then
    let rest := resampleAux r hr input (p + r)
    (interpAt input p :: rest.1, rest.2)
  else ([], p)
termination_by (⌈(((input.length : ℚ)) - p) / r⌉).toNat
decreasing_by
  have hr0 : r ≠ 0 := ne_of_gt hr
  have hlen : (0 : ℚ) < (input.length : ℚ) - p := by linarith
  have h1 : (0 : ℤ) < ⌈((input.length : ℚ) - p) / r⌉ :=
    Int.ceil_pos.mpr (div_pos hlen hr)
  have h2 : ((input.length : ℚ) - (p + r)) / r
      = ((input.length : ℚ) - p) / r - 1 := by
    field_simp
    ring
  rw [h2, Int.ceil_sub_one]
  omega

/-- Wrapper making the ratio positivity check explicit; the source always
has a positive ratio (quotient of two positive sample rates), so the
degenerate branch is never taken there. -/
def resampleLoop (r : ℚ) (input : List ℚ) (p : ℚ) : List ℚ × ℚ :=
  if hr : 0 < r then resampleAux r hr input p else ([], p)

/-- `PCMProcessor.processWithDownsampling` on one input frame, returning
the produced (appended) samples in order together with the updated
`resamplePosition`.  If the ratio is within 0.001 of 1 the bypass path
copies every input sample through and leaves the position untouched;
otherwise the interpolation loop runs and the frame length is subtracted
from the position afterwards. -/
def processWithDownsampling (r : ℚ) (input : List ℚ) (p : ℚ) :
    List ℚ × ℚ :=
  if |r - 1| < 1 / 1000 then (input, p)
  else
    let res := resampleLoop r input p
    (res.1, res.2 - input.length)

/-- Feeding a list of frames through `processWithDownsampling`, carrying
the resample position across frame boundaries and concatenating the
produced samples. -/
def processFrames (r : ℚ) (frames : List (List ℚ)) (p : ℚ) :
    List ℚ × ℚ :=
  match frames with
  | [] => ([], p)
  | f :: rest =>
    let res := processWithDownsampling r f p
    let res2 := processFrames r rest res.2
    (res.1 ++ res2.1, res2.2)

lemma resampleAux_spec (r : ℚ) (hr : 0 < r) (input : List ℚ) :
    ∀ (n : ℕ) (p : ℚ), (⌈(((input.length : ℚ)) - p) / r⌉).toNat ≤ n →
      (resampleAux r hr input p).2
          = p + (resampleAux r hr input p).1.length * r ∧
        (input.length : ℚ) ≤ (resampleAux r hr input p).2 ∧
        (p < (input.length : ℚ) →
          (resampleAux r hr input p).2 < (input.length : ℚ) + r) ∧
        ((input.length : ℚ) ≤ p → resampleAux r hr input p = ([], p)) := by
  intro n
  induction n with
  | zero =>
    intro p hp
    have hple : (input.length : ℚ) ≤ p := by
      by_contra hlt
      push_neg at hlt
      have hpos : (0 : ℤ) < ⌈((input.length : ℚ) - p) / r⌉ :=
        Int.ceil_pos.mpr (div_pos (by linarith) hr)
      omega
    have heq : resampleAux r hr input p = ([], p) := by
      rw [resampleAux]
      simp [not_lt.mpr hple]
    rw [heq]
    refine ⟨by simp, hple, ?_, fun _ => rfl⟩
    intro hcon
    linarith
  | succ n ih =>
    intro p hp
    by_cases h : p < (input.length : ℚ)
    · have hr0 : r ≠ 0 := ne_of_gt hr
      have hm1 : (0 : ℤ) < ⌈((input.length : ℚ) - p) / r⌉ :=
        Int.ceil_pos.mpr (div_pos (by linarith) hr)
      have hm2 : ((input.length : ℚ) - (p + r)) / r
          = ((input.length : ℚ) - p) / r - 1 := by
        field_simp
        ring
      have hmle : (⌈(((input.length : ℚ)) - (p + r)) / r⌉).toNat ≤ n := by
        rw [hm2, Int.ceil_sub_one]
        omega
      have hrec := ih (p + r) hmle
      have heq : resampleAux r hr input p
          = (interpAt input p :: (resampleAux r hr input (p + r)).1,
             (resampleAux r hr input (p + r)).2) := by
        rw [resampleAux]
        simp [h]
      rw [heq]
      refine ⟨?_, ?_, ?_, ?_⟩
      · simp only [List.length_cons]
        rw [hrec.1]
        push_cast
        ring
      · exact hrec.2.1
      · intro _
        by_cases h2 : p + r < (input.length : ℚ)
        · exact hrec.2.2.1 h2
        · push_neg at h2
          have := hrec.2.2.2 h2
          rw [this]
          simpa using by linarith
      · intro hcon
        linarith
    · push_neg at h
      have heq : resampleAux r hr input p = ([], p) := by
        rw [resampleAux]
        simp [not_lt.mpr h]
      rw [heq]
      refine ⟨by simp, h, ?_, fun _ => rfl⟩
      intro hcon
      linarith

lemma processWithDownsampling_spec (r : ℚ) (hr : 0 < r)
    (hnb : ¬ |r - 1| < 1 / 1000) (input : List ℚ) (p : ℚ)
    (_hp0 : 0 ≤ p) (hpr : p < r) :
    (processWithDownsampling r input p).2
        = p + (processWithDownsampling r input p).1.length * r
            - input.length ∧
      0 ≤ (processWithDownsampling r input p).2 ∧
      (processWithDownsampling r input p).2 < r := by
  have key := resampleAux_spec r hr input
    (⌈(((input.length : ℚ)) - p) / r⌉).toNat p le_rfl
  have hlp : processWithDownsampling r input p
      = ((resampleAux r hr input p).1,
         (resampleAux r hr input p).2 - input.length) := by
    unfold processWithDownsampling resampleLoop
    rw [if_neg hnb, dif_pos hr]
  rw [hlp]
  have hup : (resampleAux r hr input p).2 < (input.length : ℚ) + r := by
    by_cases h : p < (input.length : ℚ)
    · exact key.2.2.1 h
    · push_neg at h
      rw [key.2.2.2 h]
      have : (0 : ℚ) ≤ (input.length : ℚ) := by positivity
      simp only
      linarith
  refine ⟨?_, ?_, ?_⟩
  · simp only
    rw [key.1]
  · simp only
    have := key.2.1
    linarith
  · simp only
    linarith

lemma processFrames_spec (r : ℚ) (hr : 0 < r)
    (hnb : ¬ |r - 1| < 1 / 1000) :
    ∀ (frames : List (List ℚ)) (p : ℚ), 0 ≤ p → p < r →
      (processFrames r frames p).2
          = p + (processFrames r frames p).1.length * r
              - ((frames.map List.length).sum : ℚ) ∧
        0 ≤ (processFrames r frames p).2 ∧
        (processFrames r frames p).2 < r := by
  intro frames
  induction frames with
  | nil =>
    intro p h0 h1
    refine ⟨?_, by simpa [processFrames], by simpa [processFrames]⟩
    simp [processFrames]
  | cons f rest ih =>
    intro p h0 h1
    have hf := processWithDownsampling_spec r hr hnb f p h0 h1
    have hrest := ih (processWithDownsampling r f p).2 hf.2.1 hf.2.2
    have heq : processFrames r (f :: rest) p
        = ((processWithDownsampling r f p).1
             ++ (processFrames r rest (processWithDownsampling r f p).2).1,
           (processFrames r rest (processWithDownsampling r f p).2).2) := by
      rfl
    rw [heq]
    refine ⟨?_, hrest.2.1, hrest.2.2⟩
    simp only [List.length_append, List.map_cons, List.sum_cons]
    rw [hrest.1, hf.1]
    push_cast
    ring

lemma processFrames_count (r : ℚ) (hr : 0 < r)
    (hnb : ¬ |r - 1| < 1 / 1000) (frames : List (List ℚ)) :
    ((processFrames r frames 0).1.length : ℤ)
      = ⌈(((frames.map List.length).sum : ℚ)) / r⌉ := by
  obtain ⟨h1, h2, h3⟩ := processFrames_spec r hr hnb frames 0 le_rfl hr
  symm
  rw [Int.ceil_eq_iff]
  constructor
  · rw [lt_div_iff₀ hr]
    push_cast
    rw [h1] at h3
    push_cast at h3
    nlinarith
  · rw [div_le_iff₀ hr]
    push_cast
    rw [h1] at h2
    push_cast at h2
    nlinarith

/-- Claim C1 (amended): for all rates whose ratio r = R/T is positive and
differs from 1 by at least 0.001 (so that the bypass path of
`processWithDownsampling` is not taken), and for every way of splitting the
input into frames, the resampler produces exactly ⌈N / r⌉ output samples
for N total input samples — hence within ±1 of ⌊N / (R/T)⌋ — independently
of the frame splitting, because the fractional resample position is carried
across frame boundaries by subtracting the consumed frame length.  (The
original claim quantified over all rates; it fails for ratios within the
bypass tolerance, see the counterexample.) -/
theorem c1_frame_splitting (r : ℚ) (hr : 0 < r) (hnb : 1 / 1000 ≤ |r - 1|)
    (frames : List (List ℚ)) :
    ((processFrames r frames 0).1.length : ℤ)
        = ⌈(((frames.map List.length).sum : ℚ)) / r⌉ ∧
      |((processFrames r frames 0).1.length : ℤ)
          - ⌊(((frames.map List.length).sum : ℚ)) / r⌋| ≤ 1 ∧
      ∀ frames2 : List (List ℚ),
        (frames2.map List.length).sum = (frames.map List.length).sum →
          (processFrames r frames2 0).1.length
            = (processFrames r frames 0).1.length := by
  have hnb' : ¬ |r - 1| < 1 / 1000 := not_lt.mpr hnb
  have hcount := processFrames_count r hr hnb' frames
  refine ⟨hcount, ?_, ?_⟩
  · rw [hcount]
    have h1 := Int.floor_le_ceil (((frames.map List.length).sum : ℚ) / r)
    have h2 := Int.ceil_le_floor_add_one (((frames.map List.length).sum : ℚ) / r)
    rw [abs_le]
    omega
  · intro frames2 hsum
    have hcount2 := processFrames_count r hr hnb' frames2
    have hz : ((processFrames r frames2 0).1.length : ℤ)
        = ((processFrames r frames 0).1.length : ℤ) := by
      rw [hcount, hcount2, hsum]
    exact_mod_cast hz

/-- Witness for C1: with ratio 3 (48 kHz to 16 kHz) and a single 4-sample
frame, the resampler emits ⌈4/3⌉ output samples. -/
theorem c1_witness :
    (0 : ℚ) < 3 ∧ (1 : ℚ) / 1000 ≤ |(3 : ℚ) - 1| ∧
      ((processFrames 3 [[0, 0, 0, 0]] 0).1.length : ℤ)
        = ⌈(((([[0, 0, 0, 0]] : List (List ℚ)).map List.length).sum : ℚ)) / 3⌉ :=
  ⟨by norm_num, by norm_num,
   (c1_frame_splitting 3 (by norm_num) (by norm_num) [[0, 0, 0, 0]]).1⟩

/-- Counterexample for C1 as stated: with input rate 15992 and target rate
16000 the ratio 15992/16000 is within the 0.001 bypass tolerance, so the
resampler copies all 10000 input samples through unchanged, while
⌊N / (R/T)⌋ = 10005 — an error of 5, outside the claimed ±1 band. -/
theorem c1_counterexample :
    ((processFrames (15992 / 16000) [List.replicate 10000 (0 : ℚ)] 0).1.length : ℤ)
        = 10000 ∧
      ⌊((((([List.replicate 10000 (0 : ℚ)]).map List.length).sum : ℚ))
          / (15992 / 16000))⌋ = 10005 ∧
      ¬ (|((processFrames (15992 / 16000) [List.replicate 10000 (0 : ℚ)] 0).1.length : ℤ)
            - ⌊((((([List.replicate 10000 (0 : ℚ)]).map List.length).sum : ℚ))
                / (15992 / 16000))⌋| ≤ 1) := by
  have hbp : |(15992 / 16000 : ℚ) - 1| < 1 / 1000 := by
    rw [abs_lt]
    constructor <;> norm_num
  have e1 : processWithDownsampling (15992 / 16000)
        (List.replicate 10000 (0 : ℚ)) 0
      = (List.replicate 10000 (0 : ℚ), 0) := by
    unfold processWithDownsampling
    rw [if_pos hbp]
  have e2 : processFrames (15992 / 16000) [List.replicate 10000 (0 : ℚ)] 0
      = (List.replicate 10000 (0 : ℚ) ++ [], 0) := by
    simp only [processFrames, e1]
  have hlen :
      (processFrames (15992 / 16000) [List.replicate 10000 (0 : ℚ)] 0).1.length
        = 10000 := by
    rw [e2]
    simp only [List.append_nil]
    exact List.length_replicate 10000 0
  have hsum :
      ((([List.replicate 10000 (0 : ℚ)]).map List.length).sum : ℚ) = 10000 := by
    rw [List.map_cons, List.map_nil, List.sum_cons, List.sum_nil,
      List.length_replicate]
    norm_num
  have hfl : ⌊((10000 : ℚ) / (15992 / 16000))⌋ = 10005 := by
    rw [Int.floor_eq_iff]
    constructor <;> norm_num
  rw [hsum, hlen, hfl]
  norm_num

/-- Connection states of the underlying socket as exposed by the
react-use-websocket `ReadyState` enumeration (the unused UNINSTANTIATED
value is omitted). -/
inductive ReadyState where
  | CONNECTING
  | OPEN
  | CLOSING
  | CLOSED
deriving DecidableEq, Repr

/-- Connection health values of `useTranscription`. -/
inductive ConnHealth where
  | healthy
  | degraded
  | unhealthy
deriving DecidableEq, Repr

/-- State of the `useTranscription` hook: its React state object together
with the mutable refs (`audioQueueRef`, `bytesSentRef`, `missedPingsRef`,
`isProcessingQueueRef`, `configSentRef`) and the underlying socket.
`sent` records the binary buffers delivered over the wire, in order;
`sendAttempts` counts the `ws.send` calls made so far (the index into the
send-outcome oracle of the operations below); `wsOpen` models
`getWebSocket().readyState === WebSocket.OPEN`.  Moderation results are
modelled as opaque identifiers, since no claim concerns their fields. -/
structure ClientState (α : Type) where
  readyState : ReadyState
  wsOpen : Bool
  enableQueue : Bool
  maxQueueSize : ℕ
  audioQueue : List α
  sent : List α
  bytesSent : ℕ
  sendAttempts : ℕ
  isProcessingQueue : Bool
  configSent : Bool
  interimText : String
  finalizedSegments : List String
  fullTranscript : String
  sessionId : Option String
  error : Option String
  queuedChunks : ℕ
  lastPingLatency : Option ℤ
  connectionHealth : ConnHealth
  missedPings : ℕ
  latestModeration : Option ℕ
  moderationResults : List ℕ
deriving DecidableEq, Repr

/-- The inner drain loop shared by `sendAudio` and `processQueue`:
repeatedly shift the oldest queued chunk and send it; on a send failure
unshift the chunk back to the front and break.  `ok n` tells whether the
n-th `ws.send` call succeeds; the loop returns the remaining queue, the
updated wire log, byte count, and attempt counter. -/
def drainAux (ok : ℕ → Bool) (size : α → ℕ) :
    List α → List α → ℕ → ℕ → List α × List α × ℕ × ℕ
  | [], sentLog, bytes, att => ([], sentLog, bytes, att)
  | c :: rest, sentLog, bytes, att =>
    if ok att then drainAux ok size rest (sentLog ++ [c]) (bytes + size c) (att + 1)
    else (c :: rest, sentLog, bytes, att + 1)

/-- The queueing step `audioQueueRef.current.push(buf)` followed by
`audioQueueRef.current.shift()` when the length exceeds the capacity
(drop the oldest entry). -/
def pushBounded (C : ℕ) (q : List α) (b : α) : List α :=
  if C < (q ++ [b]).length then (q ++ [b]).drop 1 else q ++ [b]

/-- The inline queue-draining prologue of the open path of `sendAudio`:
when no drain is marked in progress and the queue is non-empty, run the
drain loop and store its results back into the refs.  The
`isProcessingQueue` flag is set and cleared within the same synchronous
block in the source, so it is unchanged here. -/
def sendAudioDrain (ok : ℕ → Bool) (size : α → ℕ) (st : ClientState α) :
    ClientState α :=
  if ¬ st.isProcessingQueue ∧ 0 < st.audioQueue.length then
    { st with
      audioQueue :=
        (drainAux ok size st.audioQueue st.sent st.bytesSent st.sendAttempts).1
      sent :=
        (drainAux ok size st.audioQueue st.sent st.bytesSent st.sendAttempts).2.1
      bytesSent :=
        (drainAux ok size st.audioQueue st.sent st.bytesSent
          st.sendAttempts).2.2.1
      sendAttempts :=
        (drainAux ok size st.audioQueue st.sent st.bytesSent
          st.sendAttempts).2.2.2 }
  else st

/-- `sendAudio(audioBuffer)` of `useTranscription`.  If the connection is
not open: queue when `enableQueue` (dropping the oldest entry above
capacity) and return true, otherwise return false.  If open: first drain
the queue inline (unless a drain is already marked in progress), then send
the current buffer; if that send fails, append the current buffer to the
back of the queue (when queuing is enabled, with the same bounded push and
a `queuedChunks` state update) and return false.  `enableQueue` and
`maxQueueSize` are hook options never modified by the drain, so they are
read off `st` directly in the failure branch. -/
def sendAudio (ok : ℕ → Bool) (size : α → ℕ) (st : ClientState α)
    (buf : α) : ClientState α × Bool :=
  if st.readyState ≠ ReadyState.OPEN then
    if st.enableQueue then
      ({ st with audioQueue := pushBounded st.maxQueueSize st.audioQueue buf },
       true)
    else (st, false)
  else if ¬ st.wsOpen then (st, false)
  else
    if ok (sendAudioDrain ok size st).sendAttempts then
      ({ sendAudioDrain ok size st with
         sent := (sendAudioDrain ok size st).sent ++ [buf]
         bytesSent := (sendAudioDrain ok size st).bytesSent + size buf
         sendAttempts := (sendAudioDrain ok size st).sendAttempts + 1 }, true)
    else if st.enableQueue then
      ({ sendAudioDrain ok size st with
         sendAttempts := (sendAudioDrain ok size st).sendAttempts + 1
         audioQueue :=
           pushBounded st.maxQueueSize (sendAudioDrain ok size st).audioQueue
             buf
         queuedChunks :=
           (pushBounded st.maxQueueSize (sendAudioDrain ok size st).audioQueue
             buf).length }, false)
    else
      ({ sendAudioDrain ok size st with
         sendAttempts := (sendAudioDrain ok size st).sendAttempts + 1 },
       false)

/-- A sequence of `sendAudio` calls; the boolean result is the conjunction
of the individual return values. -/
def sendMany (ok : ℕ → Bool) (size : α → ℕ) (st : ClientState α) :
    List α → ClientState α × Bool
  | [] => (st, true)
  | b :: rest =>
    let r1 := sendAudio ok size st b
    let r2 := sendMany ok size r1.1 rest
    (r2.1, r1.2 && r2.2)

/-- `processQueue` of `useTranscription`: drain the queued chunks when the
connection is open, a drain is not already in progress, and the queue is
non-empty; afterwards publish the byte and queue statistics. -/
def processQueue (ok : ℕ → Bool) (size : α → ℕ) (st : ClientState α) :
    ClientState α :=
  if st.isProcessingQueue then st
  else if st.readyState ≠ ReadyState.OPEN then st
  else if st.audioQueue.length = 0 then st
  else if ¬ st.wsOpen then st
  else
    let d := drainAux ok size st.audioQueue st.sent st.bytesSent
      st.sendAttempts
    { st with audioQueue := d.1, sent := d.2.1, bytesSent := d.2.2.1,
              sendAttempts := d.2.2.2, queuedChunks := d.1.length }

/-- The `onOpen` callback of the `useWebSocket` options: reset the refs
(`configSentRef`, `missedPingsRef`, `bytesSentRef`, `audioQueueRef`) and
the React session state for the new session. -/
def onOpen (st : ClientState α) : ClientState α :=
  { st with
    readyState := ReadyState.OPEN
    wsOpen := true
    configSent := false
    missedPings := 0
    bytesSent := 0
    audioQueue := []
    interimText := ""
    finalizedSegments := []
    fullTranscript := ""
    sessionId := none
    error := none
    queuedChunks := 0
    lastPingLatency := none
    connectionHealth := ConnHealth.healthy
    latestModeration := none
    moderationResults := [] }

/-- The socket-open transition: the `onOpen` callback runs first, then the
`useEffect` watching `readyState` observes OPEN and calls `processQueue`. -/
def openTransition (ok : ℕ → Bool) (size : α → ℕ) (st : ClientState α) :
    ClientState α :=
  processQueue ok size (onOpen st)

/-- `updateConnectionHealth` of `useTranscription`: classify the
missed-ping counter against the unhealthy threshold 3. -/
def updateConnectionHealth (missed : ℕ) : ConnHealth :=
  if missed = 0 then ConnHealth.healthy
  else if missed < 3 then ConnHealth.degraded
  else ConnHealth.unhealthy

/-- The ping-timeout callback armed by `sendPing`: increment the
missed-ping counter, recompute the health from it, and surface the
dead-connection error once the counter reaches the threshold. -/
def pingTimeout (st : ClientState α) : ClientState α :=
  let m := st.missedPings + 1
  { st with
    missedPings := m
    connectionHealth := updateConnectionHealth m
    error :=
      if 3 ≤ m then some "Connection appears dead (no heartbeat response)"
      else st.error }

/-- `handlePong(timestamp)`: clear the outstanding timeout, record the
round-trip latency `now - timestamp`, reset the missed-ping counter, set
the health to healthy and recompute it from the zero counter. -/
def handlePong (st : ClientState α) (now ts : ℤ) : ClientState α :=
  let st1 :=
    { st with
      missedPings := 0
      lastPingLatency := some (now - ts)
      connectionHealth := ConnHealth.healthy }
  { st1 with connectionHealth := updateConnectionHealth 0 }

/-- An incoming `transcription` message, as consumed by the hook's message
effect. -/
structure TranscriptionMsg where
  text : String
  is_final : Bool
deriving DecidableEq, Repr

/-- ECMAScript `String.prototype.trim`: strip leading and trailing
whitespace, modelled structurally on the character list of the string. -/
def jsTrim (s : String) : String :=
  ⟨((s.data.dropWhile Char.isWhitespace).reverse.dropWhile
      Char.isWhitespace).reverse⟩

/-- The transcription branch of the message-handling effect: final text is
trimmed and, when non-empty, appended to the finalized segments while the
interim buffer is cleared; non-final text replaces the interim buffer; the
full transcript is rebuilt as the space-join of the segments followed by
the interim value with empty entries filtered out (`filter(Boolean)`). -/
def applyTranscription (st : ClientState α) (m : TranscriptionMsg) :
    ClientState α :=
  let newInterim := if m.is_final then "" else m.text
  let newSegments :=
    if m.is_final then
      if jsTrim m.text = "" then st.finalizedSegments
      else st.finalizedSegments ++ [jsTrim m.text]
    else st.finalizedSegments
  let full :=
    String.intercalate " "
      ((newSegments ++ [newInterim]).filter (fun s => s ≠ ""))
  { st with
    interimText := newInterim
    finalizedSegments := newSegments
    fullTranscript := full }

/-- The hook state right after `useState` initialization with default
options (`maxQueueSize` 50, `enableQueue` true), before any connection. -/
def initClient : ClientState ℕ :=
  { readyState := ReadyState.CLOSED
    wsOpen := false
    enableQueue := true
    maxQueueSize := 50
    audioQueue := []
    sent := []
    bytesSent := 0
    sendAttempts := 0
    isProcessingQueue := false
    configSent := false
    interimText := ""
    finalizedSegments := []
    fullTranscript := ""
    sessionId := none
    error := none
    queuedChunks := 0
    lastPingLatency := none
    connectionHealth := ConnHealth.healthy
    missedPings := 0
    latestModeration := none
    moderationResults := [] }

/-- The suffix of the `C` most recently pushed elements. -/
def lastN (C : ℕ) (l : List α) : List α :=
  l.drop (l.length - C)

lemma drainAux_length_le (ok : ℕ → Bool) (size : α → ℕ) :
    ∀ (q sentLog : List α) (b a : ℕ),
      (drainAux ok size q sentLog b a).1.length ≤ q.length := by
  intro q
  induction q with
  | nil => intro sentLog b a; simp [drainAux]
  | cons c rest ih =>
    intro sentLog b a
    unfold drainAux
    split
    · exact le_trans (ih _ _ _) (by simp)
    · simp

lemma drainAux_all_ok (size : α → ℕ) :
    ∀ (q sentLog : List α) (b a : ℕ),
      (drainAux (fun _ => true) size q sentLog b a).1 = [] ∧
        (drainAux (fun _ => true) size q sentLog b a).2.1 = sentLog ++ q := by
  intro q
  induction q with
  | nil => intro sentLog b a; simp [drainAux]
  | cons c rest ih =>
    intro sentLog b a
    unfold drainAux
    split
    · refine ⟨(ih _ _ _).1, ?_⟩
      rw [(ih _ _ _).2]
      simp
    · simp_all

lemma drainAux_all_fail (size : α → ℕ) (q sentLog : List α) (b a : ℕ) :
    (drainAux (fun _ => false) size q sentLog b a).1 = q ∧
      (drainAux (fun _ => false) size q sentLog b a).2.1 = sentLog := by
  cases q <;> simp [drainAux]

lemma trim_length_le (C : ℕ) (l : List α) (h : l.length ≤ C + 1) :
    (if C < l.length then l.drop 1 else l).length ≤ C := by
  split
  · rw [List.length_drop]
    omega
  · omega

lemma lastN_of_le (C : ℕ) (l : List α) (h : l.length ≤ C) :
    lastN C l = l := by
  unfold lastN
  rw [Nat.sub_eq_zero_of_le h, List.drop_zero]

lemma lastN_append_of_ge (C : ℕ) (pre x : List α) (h : C ≤ x.length) :
    lastN C (pre ++ x) = lastN C x := by
  unfold lastN
  rw [List.length_append]
  have hsub : pre.length + x.length - C = pre.length + (x.length - C) := by
    omega
  rw [hsub, List.drop_append]

lemma lastN_absorb (C : ℕ) (l rest : List α) :
    lastN C (lastN C l ++ rest) = lastN C (l ++ rest) := by
  rcases le_or_lt l.length C with h | h
  · rw [lastN_of_le C l h]
  · have hlen : (lastN C l).length = C := by
      unfold lastN
      rw [List.length_drop]
      omega
    have hdecomp : l ++ rest = l.take (l.length - C) ++ (lastN C l ++ rest) := by
      rw [← List.append_assoc]
      unfold lastN
      rw [List.take_append_drop]
    rw [hdecomp, lastN_append_of_ge C (l.take (l.length - C))
      (lastN C l ++ rest) (by rw [List.length_append, hlen]; omega)]

lemma pushBounded_lastN (C : ℕ) (q : List α) (b : α) (h : q.length ≤ C) :
    pushBounded C q b = lastN C (q ++ [b]) := by
  unfold pushBounded
  rcases lt_or_ge q.length C with hlt | hge
  · rw [if_neg, lastN_of_le] <;> simp <;> omega
  · have hq : q.length = C := le_antisymm h hge
    rw [if_pos (by simp; omega)]
    unfold lastN
    rw [List.length_append]
    simp [hq]

lemma pushBounded_length_le (C : ℕ) (q : List α) (b : α)
    (h : q.length ≤ C) :
    (pushBounded C q b).length ≤ C := by
  unfold pushBounded
  apply trim_length_le
  rw [List.length_append]
  simpa using h

lemma sendAudio_notOpen (ok : ℕ → Bool) (size : α → ℕ)
    (st : ClientState α) (b : α)
    (hro : st.readyState ≠ ReadyState.OPEN) (hq : st.enableQueue = true) :
    sendAudio ok size st b
      = ({ st with audioQueue := pushBounded st.maxQueueSize st.audioQueue b },
         true) := by
  unfold sendAudio
  rw [if_pos hro]
  rw [if_pos (by rw [hq] : st.enableQueue = true)]

lemma sendMany_notOpen (ok : ℕ → Bool) (size : α → ℕ) :
    ∀ (bs : List α) (st : ClientState α),
      st.readyState ≠ ReadyState.OPEN → st.enableQueue = true →
      st.audioQueue.length ≤ st.maxQueueSize →
      (sendMany ok size st bs).2 = true ∧
        (sendMany ok size st bs).1.audioQueue
          = lastN st.maxQueueSize (st.audioQueue ++ bs) := by
  intro bs
  induction bs with
  | nil =>
    intro st hro hq hlen
    refine ⟨rfl, ?_⟩
    show st.audioQueue = _
    rw [List.append_nil, lastN_of_le _ _ hlen]
  | cons b rest ih =>
    intro st hro hq hlen
    have hsa := sendAudio_notOpen ok size st b hro hq
    have hstep :
        (sendAudio ok size st b).1.audioQueue
          = lastN st.maxQueueSize (st.audioQueue ++ [b]) := by
      rw [hsa]
      exact pushBounded_lastN st.maxQueueSize st.audioQueue b hlen
    have hfields :
        (sendAudio ok size st b).1.readyState = st.readyState ∧
          (sendAudio ok size st b).1.enableQueue = st.enableQueue ∧
          (sendAudio ok size st b).1.maxQueueSize = st.maxQueueSize := by
      rw [hsa]
      exact ⟨rfl, rfl, rfl⟩
    have hlen' :
        (sendAudio ok size st b).1.audioQueue.length
          ≤ (sendAudio ok size st b).1.maxQueueSize := by
      rw [hstep, hfields.2.2]
      unfold lastN
      rw [List.length_drop, List.length_append]
      simp only [List.length_cons]
      omega
    have hrec := ih (sendAudio ok size st b).1
      (by rw [hfields.1]; exact hro)
      (by rw [hfields.2.1]; exact hq) hlen'
    have hsnd : (sendAudio ok size st b).2 = true := by rw [hsa]
    refine ⟨?_, ?_⟩
    · show ((sendAudio ok size st b).2 && (sendMany ok size _ rest).2) = true
      rw [hsnd, hrec.1]
      rfl
    · show (sendMany ok size (sendAudio ok size st b).1 rest).1.audioQueue = _
      rw [hrec.2, hfields.2.2, hstep, lastN_absorb]
      rw [List.append_assoc]
      rfl

lemma sendAudioDrain_queue_le (ok : ℕ → Bool) (size : α → ℕ)
    (st : ClientState α) :
    (sendAudioDrain ok size st).audioQueue.length ≤ st.audioQueue.length := by
  unfold sendAudioDrain
  split
  · exact drainAux_length_le ok size _ _ _ _
  · exact le_refl _

lemma sendAudioDrain_fields (ok : ℕ → Bool) (size : α → ℕ)
    (st : ClientState α) :
    (sendAudioDrain ok size st).maxQueueSize = st.maxQueueSize ∧
      (sendAudioDrain ok size st).enableQueue = st.enableQueue ∧
      (sendAudioDrain ok size st).readyState = st.readyState ∧
      (sendAudioDrain ok size st).wsOpen = st.wsOpen := by
  unfold sendAudioDrain
  split <;> exact ⟨rfl, rfl, rfl, rfl⟩

lemma sendAudio_queue_le (ok : ℕ → Bool) (size : α → ℕ)
    (st : ClientState α) (buf : α)
    (h : st.audioQueue.length ≤ st.maxQueueSize) :
    ((sendAudio ok size st buf).1).audioQueue.length ≤ st.maxQueueSize := by
  have hd := le_trans (sendAudioDrain_queue_le ok size st) h
  unfold sendAudio
  split_ifs
  · exact pushBounded_length_le _ _ _ h
  · exact h
  · exact hd
  · exact pushBounded_length_le _ _ _ hd
  · exact hd
  · exact h

lemma sendAudioDrain_allok (size : α → ℕ) (st : ClientState α)
    (hproc : st.isProcessingQueue = false) :
    (sendAudioDrain (fun _ => true) size st).audioQueue = [] ∧
      (sendAudioDrain (fun _ => true) size st).sent
        = st.sent ++ st.audioQueue := by
  unfold sendAudioDrain
  by_cases hq : 0 < st.audioQueue.length
  · rw [if_pos ⟨by simp [hproc], hq⟩]
    exact ⟨(drainAux_all_ok size _ _ _ _).1, (drainAux_all_ok size _ _ _ _).2⟩
  · rw [if_neg (by rintro ⟨-, h2⟩; exact hq h2)]
    have hqe : st.audioQueue = [] := List.length_eq_zero.mp (by omega)
    exact ⟨hqe, by rw [hqe, List.append_nil]⟩

lemma sendAudioDrain_allfail (size : α → ℕ) (st : ClientState α) :
    (sendAudioDrain (fun _ => false) size st).audioQueue = st.audioQueue ∧
      (sendAudioDrain (fun _ => false) size st).sent = st.sent := by
  unfold sendAudioDrain
  split
  · exact ⟨(drainAux_all_fail size _ _ _ _).1,
      (drainAux_all_fail size _ _ _ _).2⟩
  · exact ⟨rfl, rfl⟩

lemma sendAudio_open_allok (size : α → ℕ) (st : ClientState α) (buf : α)
    (hro : st.readyState = ReadyState.OPEN) (hws : st.wsOpen = true)
    (hproc : st.isProcessingQueue = false) :
    (sendAudio (fun _ => true) size st buf).1.sent
        = st.sent ++ st.audioQueue ++ [buf] ∧
      (sendAudio (fun _ => true) size st buf).1.audioQueue = [] ∧
      (sendAudio (fun _ => true) size st buf).2 = true := by
  have hd := sendAudioDrain_allok size st hproc
  unfold sendAudio
  rw [if_neg (by simp [hro]), if_neg (by simp [hws]), if_pos rfl]
  refine ⟨?_, hd.1, rfl⟩
  show (sendAudioDrain (fun _ => true) size st).sent ++ [buf] = _
  rw [hd.2]

lemma sendAudio_open_allfail (size : α → ℕ) (st : ClientState α) (buf : α)
    (hro : st.readyState = ReadyState.OPEN) (hws : st.wsOpen = true)
    (henq : st.enableQueue = true)
    (hcap : st.audioQueue.length + 1 ≤ st.maxQueueSize) :
    (sendAudio (fun _ => false) size st buf).1.audioQueue
        = st.audioQueue ++ [buf] ∧
      (sendAudio (fun _ => false) size st buf).1.sent = st.sent ∧
      (sendAudio (fun _ => false) size st buf).2 = false := by
  have hd := sendAudioDrain_allfail size st
  unfold sendAudio
  rw [if_neg (by simp [hro]), if_neg (by simp [hws]),
    if_neg (by simp : ¬ ((fun _ : ℕ => false) ((sendAudioDrain (fun _ => false)
      size st).sendAttempts) = true)),
    if_pos (by rw [henq] : st.enableQueue = true)]
  refine ⟨?_, hd.2, rfl⟩
  show pushBounded st.maxQueueSize
    (sendAudioDrain (fun _ => false) size st).audioQueue buf = _
  rw [hd.1]
  unfold pushBounded
  rw [if_neg (by rw [List.length_append]; simp only [List.length_cons,
    List.length_nil]; omega)]

/-- The hook state with queue capacity 5, as in the C3 scenario. -/
def c3Start : ClientState ℕ :=
  { initClient with maxQueueSize := 5 }

/-- Counterexample for C3 as stated: with queuing enabled, capacity 5 and
7 chunks sent while closed, the queue holds the last 5 chunks, but the
open transition (`onOpen` resets `audioQueueRef` to `[]` before the
`readyState` effect runs `processQueue`) delivers zero chunks over the
socket, not 5. -/
theorem c3_counterexample :
    ((sendMany (fun _ => true) (fun _ => 1) c3Start
        [1, 2, 3, 4, 5, 6, 7]).1).audioQueue = [3, 4, 5, 6, 7] ∧
      (openTransition (fun _ => true) (fun _ => 1)
        (sendMany (fun _ => true) (fun _ => 1) c3Start
          [1, 2, 3, 4, 5, 6, 7]).1).sent = [] ∧
      ¬ ((openTransition (fun _ => true) (fun _ => 1)
        (sendMany (fun _ => true) (fun _ => 1) c3Start
          [1, 2, 3, 4, 5, 6, 7]).1).sent = [3, 4, 5, 6, 7]) := by
  decide

/-- Claim C3 (amended): with queuing enabled, capacity 5 and 7 chunks sent
while the connection is not open, every call returns true and the queue
holds exactly the 5 most recently pushed chunks in their original order;
but when the connection becomes open the session reset discards all queued
chunks, so none of them is delivered over the socket. -/
theorem c3_queue_last5_discarded_on_open :
    ((sendMany (fun _ => true) (fun _ => 1) c3Start
        [1, 2, 3, 4, 5, 6, 7]).1).audioQueue = [3, 4, 5, 6, 7] ∧
      (sendMany (fun _ => true) (fun _ => 1) c3Start
        [1, 2, 3, 4, 5, 6, 7]).2 = true ∧
      (openTransition (fun _ => true) (fun _ => 1)
        (sendMany (fun _ => true) (fun _ => 1) c3Start
          [1, 2, 3, 4, 5, 6, 7]).1).audioQueue = [] ∧
      (openTransition (fun _ => true) (fun _ => 1)
        (sendMany (fun _ => true) (fun _ => 1) c3Start
          [1, 2, 3, 4, 5, 6, 7]).1).sent = [] := by
  decide

/-- Claim C4: connection health is the pure function
`updateConnectionHealth` of the missed-ping counter — 0 maps to healthy,
1 and 2 to degraded, 3 or more to unhealthy — and it is recomputed from
the counter on every ping timeout; a pong resets the missed-ping counter
to zero, records the round-trip latency, and recomputes the health to
healthy. -/
theorem c4_heartbeat_health :
    updateConnectionHealth 0 = ConnHealth.healthy ∧
      updateConnectionHealth 1 = ConnHealth.degraded ∧
      updateConnectionHealth 2 = ConnHealth.degraded ∧
      (∀ n : ℕ, 3 ≤ n → updateConnectionHealth n = ConnHealth.unhealthy) ∧
      (∀ st : ClientState ℕ,
        (pingTimeout st).connectionHealth
          = updateConnectionHealth (pingTimeout st).missedPings) ∧
      (∀ (st : ClientState ℕ) (now ts : ℤ),
        (handlePong st now ts).missedPings = 0 ∧
          (handlePong st now ts).lastPingLatency = some (now - ts) ∧
          (handlePong st now ts).connectionHealth = ConnHealth.healthy) := by
  refine ⟨rfl, rfl, rfl, ?_, ?_, ?_⟩
  · intro n hn
    unfold updateConnectionHealth
    rw [if_neg (by omega), if_neg (by omega)]
  · intro st
    rfl
  · intro st now ts
    exact ⟨rfl, rfl, rfl⟩

/-- Witness for C4: five missed pings classify as unhealthy. -/
theorem c4_witness :
    3 ≤ 5 ∧ updateConnectionHealth 5 = ConnHealth.unhealthy :=
  ⟨by omega, c4_heartbeat_health.2.2.2.1 5 (by omega)⟩

/-- Claim C5 (amended): when the connection is open (and no drain is
already marked in progress), `sendAudio` drains the queued buffers in FIFO
order over the wire before the current buffer: if every send succeeds the
wire receives the old queue followed by the current buffer and the queue
empties.  A queued buffer whose send fails stays at the front of the
queue, while the current buffer, when its own send fails, is appended at
the BACK of the queue (not the front as originally claimed) when queuing
is enabled, and the call returns false. -/
theorem c5_fifo_drain_and_requeue {α : Type} (size : α → ℕ)
    (st : ClientState α) (buf : α)
    (hro : st.readyState = ReadyState.OPEN) (hws : st.wsOpen = true)
    (hproc : st.isProcessingQueue = false) :
    ((sendAudio (fun _ => true) size st buf).1.sent
        = st.sent ++ st.audioQueue ++ [buf] ∧
      (sendAudio (fun _ => true) size st buf).1.audioQueue = [] ∧
      (sendAudio (fun _ => true) size st buf).2 = true) ∧
    (st.enableQueue = true → st.audioQueue.length + 1 ≤ st.maxQueueSize →
      (sendAudio (fun _ => false) size st buf).1.audioQueue
          = st.audioQueue ++ [buf] ∧
        (sendAudio (fun _ => false) size st buf).1.sent = st.sent ∧
        (sendAudio (fun _ => false) size st buf).2 = false) :=
  ⟨sendAudio_open_allok size st buf hro hws hproc,
   fun henq hcap => sendAudio_open_allfail size st buf hro hws henq hcap⟩

/-- The hook state of the C5 counterexample: open connection with one
chunk (0) already queued and capacity 5. -/
def c5Start : ClientState ℕ :=
  { initClient with
    readyState := ReadyState.OPEN
    wsOpen := true
    audioQueue := [0]
    maxQueueSize := 5 }

/-- Counterexample for C5 as stated: with queued chunk 0 and every send
failing, sending buffer 1 leaves the queue as [0, 1] — the undelivered
current buffer 1 is re-queued at the BACK, not at the front as the claim
states. -/
theorem c5_counterexample :
    ((sendAudio (fun _ => false) (fun _ => 2) c5Start 1).1).audioQueue
        = [0, 1] ∧
      ¬ ((sendAudio (fun _ => false) (fun _ => 2) c5Start
        1).1).audioQueue.head? = some 1 := by
  decide

/-- The open hook state with one queued chunk (7), used by the C5
witness. -/
def c5WitStart : ClientState ℕ :=
  { initClient with
    readyState := ReadyState.OPEN
    wsOpen := true
    audioQueue := [7] }

/-- Witness for C5: an open connection with queued chunk 7; the
all-sends-succeed branch delivers the queue then the buffer. -/
theorem c5_witness :
    c5WitStart.readyState = ReadyState.OPEN ∧ c5WitStart.wsOpen = true ∧
      c5WitStart.isProcessingQueue = false ∧
      (sendAudio (fun _ => true) (fun _ => 1) c5WitStart 9).1.sent
        = c5WitStart.sent ++ c5WitStart.audioQueue ++ [9] :=
  ⟨rfl, rfl, rfl,
   (c5_fifo_drain_and_requeue (fun _ => 1) c5WitStart 9 rfl rfl rfl).1.1⟩

/-- Claim C6: a `sendAudio` call never grows the backpressure queue beyond
its capacity (for any send-outcome oracle and any path through the call),
and pushing any sequence of chunks while disconnected with queuing enabled
always returns true and leaves exactly the most recently pushed chunks up
to capacity, oldest dropped first (the suffix `lastN maxQueueSize`). -/
theorem c6_queue_capacity {α : Type} :
    (∀ (ok : ℕ → Bool) (size : α → ℕ) (st : ClientState α) (buf : α),
        st.audioQueue.length ≤ st.maxQueueSize →
        ((sendAudio ok size st buf).1).audioQueue.length ≤ st.maxQueueSize) ∧
    (∀ (ok : ℕ → Bool) (size : α → ℕ) (st : ClientState α) (bs : List α),
        st.readyState ≠ ReadyState.OPEN → st.enableQueue = true →
        st.audioQueue.length ≤ st.maxQueueSize →
        (sendMany ok size st bs).2 = true ∧
          (sendMany ok size st bs).1.audioQueue
            = lastN st.maxQueueSize (st.audioQueue ++ bs)) :=
  ⟨fun ok size st buf h => sendAudio_queue_le ok size st buf h,
   fun ok size st bs h1 h2 h3 => sendMany_notOpen ok size bs st h1 h2 h3⟩

/-- Witness for C6: three chunks pushed into the fresh (closed) hook state
are all accepted and the queue is the 3-element suffix. -/
theorem c6_witness :
    initClient.audioQueue.length ≤ initClient.maxQueueSize ∧
      initClient.readyState ≠ ReadyState.OPEN ∧
      initClient.enableQueue = true ∧
      (sendMany (fun _ => true) (fun _ => 1) initClient [1, 2, 3]).2 = true ∧
      (sendMany (fun _ => true) (fun _ => 1) initClient
          [1, 2, 3]).1.audioQueue
        = lastN initClient.maxQueueSize (initClient.audioQueue ++ [1, 2, 3]) :=
  ⟨by decide, by decide, rfl,
   (c6_queue_capacity.2 (fun _ => true) (fun _ => 1) initClient [1, 2, 3]
     (by decide) rfl (by decide)).1,
   (c6_queue_capacity.2 (fun _ => true) (fun _ => 1) initClient [1, 2, 3]
     (by decide) rfl (by decide)).2⟩

/-- Claim C7 (amended): for every incoming transcription message,
non-final text replaces the current interim buffer; final text is trimmed
of surrounding whitespace and, when the trimmed text is non-empty,
appended to the ordered list of finalized segments (whitespace-only final
text appends nothing), and the interim buffer is cleared; the full
transcript always equals the space-join of the finalized segments followed
by the current interim value with empty entries omitted; in particular,
is_final:false "Hel" followed by is_final:true "Hello" leaves the full
transcript equal to "Hello". -/
theorem c7_transcript_assembly {α : Type} (st : ClientState α)
    (m : TranscriptionMsg) :
    (m.is_final = false →
      (applyTranscription st m).interimText = m.text ∧
        (applyTranscription st m).finalizedSegments = st.finalizedSegments) ∧
    (m.is_final = true →
      (applyTranscription st m).interimText = "" ∧
        (applyTranscription st m).finalizedSegments
          = (if jsTrim m.text = "" then st.finalizedSegments
             else st.finalizedSegments ++ [jsTrim m.text])) ∧
    (applyTranscription st m).fullTranscript
      = String.intercalate " "
          (((applyTranscription st m).finalizedSegments
              ++ [(applyTranscription st m).interimText]).filter
            (fun x => x ≠ "")) ∧
    (applyTranscription (applyTranscription initClient ⟨"Hel", false⟩)
        ⟨"Hello", true⟩).fullTranscript = "Hello" := by
  refine ⟨?_, ?_, rfl, by decide⟩
  · intro hf
    unfold applyTranscription
    rw [hf]
    exact ⟨rfl, rfl⟩
  · intro hf
    unfold applyTranscription
    rw [hf]
    exact ⟨rfl, rfl⟩

/-- Witness for C7: a non-final message with text "abc" replaces the
interim buffer and leaves the segments unchanged. -/
theorem c7_witness :
    (applyTranscription initClient ⟨"abc", false⟩).interimText = "abc" ∧
      (applyTranscription initClient
        ⟨"abc", false⟩).finalizedSegments = initClient.finalizedSegments :=
  (c7_transcript_assembly initClient ⟨"abc", false⟩).1 rfl

/-- Counterexample for C7 as stated: a final message with text " Hello "
appends the trimmed "Hello", not the final text " Hello " itself, to the
finalized segments. -/
theorem c7_counterexample :
    (applyTranscription initClient ⟨" Hello ", true⟩).finalizedSegments
        = ["Hello"] ∧
      ¬ (" Hello "
          ∈ (applyTranscription initClient
              ⟨" Hello ", true⟩).finalizedSegments) := by
  decide

/-- Claim C9: a final transcription message whose text is empty or
whitespace-only appends no segment (the interim buffer is still cleared);
non-empty final text is trimmed of leading and trailing whitespace before
being appended. -/
theorem c9_final_whitespace_skip {α : Type} (st : ClientState α)
    (m : TranscriptionMsg) (hf : m.is_final = true) :
    (jsTrim m.text = "" →
      (applyTranscription st m).finalizedSegments = st.finalizedSegments ∧
        (applyTranscription st m).interimText = "") ∧
    (jsTrim m.text ≠ "" →
      (applyTranscription st m).finalizedSegments
          = st.finalizedSegments ++ [jsTrim m.text] ∧
        (applyTranscription st m).interimText = "") := by
  constructor
  · intro ht
    unfold applyTranscription
    rw [hf, if_pos ht]
    exact ⟨rfl, rfl⟩
  · intro ht
    unfold applyTranscription
    rw [hf, if_neg ht]
    exact ⟨rfl, rfl⟩

/-- Witness for C9: a final whitespace-only message ("  ") appends nothing
and clears the interim buffer. -/
theorem c9_witness :
    (⟨"  ", true⟩ : TranscriptionMsg).is_final = true ∧
      jsTrim "  " = "" ∧
      (applyTranscription initClient ⟨"  ", true⟩).finalizedSegments
        = initClient.finalizedSegments ∧
      (applyTranscription initClient ⟨"  ", true⟩).interimText = "" :=
  ⟨rfl, by decide,
   ((c9_final_whitespace_skip initClient ⟨"  ", true⟩ rfl).1 (by decide)).1,
   ((c9_final_whitespace_skip initClient ⟨"  ", true⟩ rfl).1 (by decide)).2⟩

/-- Claim C10: every open transition (`onOpen` fires on the initial
connect and on every automatic reconnect) resets the session state:
interim text, finalized segments, full transcript and moderation results
become empty, session id and error become null, bytesSent becomes 0,
connection health becomes healthy, the missed-ping counter becomes 0, and
all audio chunks queued before the open are discarded. -/
theorem c10_onOpen_session_reset {α : Type} (st : ClientState α) :
    (onOpen st).interimText = "" ∧ (onOpen st).finalizedSegments = [] ∧
      (onOpen st).fullTranscript = "" ∧ (onOpen st).moderationResults = [] ∧
      (onOpen st).latestModeration = none ∧ (onOpen st).sessionId = none ∧
      (onOpen st).error = none ∧ (onOpen st).bytesSent = 0 ∧
      (onOpen st).connectionHealth = ConnHealth.healthy ∧
      (onOpen st).missedPings = 0 ∧ (onOpen st).audioQueue = [] :=
  ⟨rfl, rfl, rfl, rfl, rfl, rfl, rfl, rfl, rfl, rfl, rfl⟩
